import Mathlib

/-!
Verification of the MTA-STS policy subsystem of chasquid
(internal/sts/sts.go) against its natural-language specification.

The Go code is shallowly embedded: pure functions become Lean functions,
the filesystem-backed cache becomes explicit state passing over an
abstract file/map state, and machine integers (Go `int` / `time.Duration`,
both 64-bit) become `Int` with explicit reduction modulo 2^64 where
overflow matters.  External collaborators (the IDNA library, the DNS
resolver, the HTTP transport, encoding/json's byte rendering) are either
taken as function parameters or modelled at the level of the abstract
values they transport; each such spot is noted in a doc comment.
-/

deriving instance DecidableEq for Except

/-! ## Go primitives used by the parser -/

/-- Unicode whitespace as Go `unicode.IsSpace` decides it on the Latin-1
range: tab, newline, vertical tab, form feed, carriage return, space,
NEL (U+0085) and NBSP (U+00A0).  Policy documents are ASCII, so the
higher Unicode space table is not modelled. -/
def goIsSpace (c : Char) : Bool :=
  c == ' ' || c == '\t' || c == '\n' || c == '\x0B' || c == '\x0C' ||
  c == '\r' || c == '\x85' || c == '\xA0'

/-- Go `strings.TrimSpace`: drop whitespace from both ends. -/
def trimSpace (l : List Char) : List Char :=
  ((l.dropWhile goIsSpace).reverse.dropWhile goIsSpace).reverse

/-- Go `strings.SplitN(s, sep, 2)` for a one-character separator:
`none` when the separator does not occur (Go returns the single-element
slice, and parsePolicy skips the line); otherwise the part before the
first occurrence and everything after it. -/
def splitOnce (sep : Char) : List Char → Option (List Char × List Char)
  | [] => none
  | c :: rest =>
    if c = sep then some ([], rest)
    else
      match splitOnce sep rest with
      | none => none
      | some q => some (c :: q.1, q.2)

/-- Signed 64-bit wraparound: Go's defined two's-complement overflow for
`int` / `time.Duration` arithmetic. -/
def wrap64 (x : Int) : Int :=
  (x + 9223372036854775808) % 18446744073709551616 - 9223372036854775808

/-- Magnitude part of `strconv.Atoi`: all-digit strings give their value,
anything else is a syntax error (`none`). -/
def digitsVal (acc : Nat) : List Char → Option Nat
  | [] => some acc
  | c :: rest =>
    if c.isDigit then digitsVal (acc * 10 + (c.toNat - 48)) rest else none

/-- Go `strconv.Atoi(s)` with its error discarded, as parsePolicy does
(`maxAge, _ := strconv.Atoi(value)`): a syntactically invalid string
yields the zero value 0, while a well-formed decimal out of int64 range
yields the saturated extremal int64 value (Atoi reports ErrRange together
with that value, and the caller ignores the error). -/
def goAtoiAbs (neg : Bool) (l : List Char) : Int :=
  match l with
  | [] => 0
  | _ :: _ =>
    match digitsVal 0 l with
    | none => 0
    | some n =>
      if neg then
        if 9223372036854775808 < (n : Int) then -9223372036854775808 else -(n : Int)
      else
        if 9223372036854775807 < (n : Int) then 9223372036854775807 else (n : Int)

def goAtoi (s : String) : Int :=
  match s.toList with
  | [] => 0
  | c :: rest =>
    if c = '+' then goAtoiAbs false rest
    else if c = '-' then goAtoiAbs true rest
    else goAtoiAbs false (c :: rest)

/-! ## bufio.Scanner with ScanLines over an in-memory buffer -/

/-- The raw maximal '\n'-free segments of the buffer (the data the
scanner must buffer to produce each token).  Always non-empty; the last
segment is the data after the final newline (empty when the buffer ends
in '\n' or is empty). -/
def rawSegs : List Char → List (List Char)
  | [] => [[]]
  | c :: rest =>
    match rawSegs rest with
    | [] => []
    | s :: ss => if c = '\n' then [] :: s :: ss else (c :: s) :: ss

/-- `bufio.MaxScanTokenSize`: the scanner's buffer is capped at 64 KiB. -/
def maxScanTokenSize : Nat := 65536

/-- A segment of this length or more overflows the scanner's buffer
before a newline (or EOF token emission) is reached, so `Scan` stops
with `bufio.ErrTooLong`. -/
def scanTooLong (l : List Char) : Bool :=
  (rawSegs l).any (fun s => maxScanTokenSize ≤ s.length)

/-- `dropCR` of bufio.ScanLines: strip one trailing '\r' from a token. -/
def dropCR (l : List Char) : List Char :=
  if l.getLast? = some '\r' then l.dropLast else l

/-- The tokens `scanner.Scan`/`Text` yields: split on '\n', no final
empty token at EOF, one trailing '\r' stripped from each token. -/
def scanTokens (l : List Char) : List (List Char) :=
  let segs := rawSegs l
  (if segs.getLast? = some [] then segs.dropLast else segs).map dropCR

/-! ## The policy model (sts.go `Policy`, `Mode`, `Check`) -/

/-- Go `Policy`.  `Mode` is a string type in the source; `MaxAge` is a
`time.Duration`, an int64 count of nanoseconds, embedded as `Int`
(every value the embedded operations produce lies in int64 range by
construction via `wrap64`). -/
structure Policy where
  Version : String
  Mode : String
  MXs : List String
  MaxAge : Int
deriving DecidableEq

def emptyPolicy : Policy := { Version := "", Mode := "", MXs := [], MaxAge := 0 }

/-- `time.Second` in nanoseconds. -/
def nsPerSecond : Int := 1000000000

inductive CheckErr where
  | unknownVersion
  | invalidMaxAge
  | invalidMode
  | invalidMX
deriving DecidableEq

/-- `Policy.Check` (sts.go lines 133-156): `none` means the policy is
valid, `some e` is the error returned. -/
def Policy.Check (p : Policy) : Option CheckErr :=
  if p.Version ≠ "STSv1" then some .unknownVersion
  else if p.MaxAge ≤ 0 ∨ 31557600 * nsPerSecond < p.MaxAge then some .invalidMaxAge
  else if ¬(p.Mode = "enforce" ∨ p.Mode = "testing" ∨ p.Mode = "none") then
    some .invalidMode
  else if p.MXs = [] then some .invalidMX
  else none

/-! ## parsePolicy (sts.go lines 85-117) -/

/-- The body of parsePolicy's scan loop for one line: split on the first
':' (skip the line if there is none), trim both parts, and dispatch on
the recognized keys exactly as the Go switch does. -/
def applyLine (p : Policy) (line : List Char) : Policy :=
  match splitOnce ':' line with
  | none => p
  | some kv =>
    let key := String.mk (trimSpace kv.1)
    let value := String.mk (trimSpace kv.2)
    if key = "version" then { p with Version := value }
    else if key = "mode" then { p with Mode := value }
    else if key = "max_age" then
      { p with MaxAge := wrap64 (goAtoi value * nsPerSecond) }
    else if key = "mx" then { p with MXs := p.MXs ++ [value] }
    else p

/-- `parsePolicy(raw)` (sts.go lines 85-117).  The only error the
scanner can report when reading from an in-memory `bytes.Reader` is
`bufio.ErrTooLong`, raised when a line exceeds the 64 KiB token limit;
that is the `.error` case.  Otherwise the policy built by folding the
scan-loop body over the scanned lines is returned. -/
def parsePolicy (raw : String) : Except Unit Policy :=
  if scanTooLong raw.toList then .error ()
  else .ok ((scanTokens raw.toList).foldl applyLine emptyPolicy)

/-! ## Domain normalization and MX matching (sts.go lines 158-172, 277-313) -/

/-- golang.org/x/net/idna `ToASCII` is an external library, so it enters
the embedding as a parameter of the functions that call it.  On the
all-ASCII domains appearing in the claims it is the identity, which is
what the library computes there. -/
def idnaId : String → Except Unit String := fun s => .ok s

/-- ASCII case folding, the fragment of Go `strings.ToLower` the
all-ASCII domains of the claims exercise. -/
def asciiLower (c : Char) : Char :=
  if 'A' ≤ c ∧ c ≤ 'Z' then Char.ofNat (c.toNat + 32) else c

def strLower (s : String) : String := String.mk (s.toList.map asciiLower)

/-- `strings.TrimSuffix(domain, ".")`: strip one trailing dot. -/
def trimDotSuffix (s : String) : String :=
  if s.toList.getLast? = some '.' then String.mk s.toList.dropLast else s

/-- `domainToASCII` (sts.go lines 309-313): strip a trailing dot,
lowercase, then idna.ToASCII. -/
def domainToASCII (idna : String → Except Unit String) (domain : String) :
    Except Unit String :=
  idna (strLower (trimDotSuffix domain))

/-- The wildcard arm of `matchDomain`: `strings.HasPrefix(pattern, "*.")`
and then `parts := strings.SplitN(domain, ".", 2)`,
`len(parts) > 1 && parts[1] == pattern[2:]`. -/
def wildcardArm (d q : List Char) : Bool :=
  match q with
  | '*' :: '.' :: suffix =>
    match splitOnce '.' d with
    | some parts => parts.2 == suffix
    | none => false
  | _ => false

/-- `matchDomain` (sts.go lines 280-305): normalize both sides (any
normalization failure is a non-match), then literal equality, then the
`*.` wildcard rule. -/
def matchDomain (idna : String → Except Unit String) (domain pat : String) : Bool :=
  match domainToASCII idna domain, domainToASCII idna pat with
  | .ok d, .ok q =>
    if d = q then true
    else wildcardArm d.toList q.toList
  | _, _ => false

/-- `Policy.MXIsAllowed` (sts.go lines 160-172). -/
def Policy.MXIsAllowed (p : Policy) (idna : String → Except Unit String)
    (mx : String) : Bool :=
  if p.Mode ≠ "enforce" then true
  else p.MXs.any (fun pat => matchDomain idna mx pat)

/-- The spec's own wording of pattern matching (spec §4.3): after
normalization on both sides the two are byte-equal, or the pattern
begins with `*.` and the candidate's tail after its first `.` equals the
pattern's suffix after `*.`.  Compared against `matchDomain` for the
refinement claim. -/
def specPatternMatches (idna : String → Except Unit String)
    (pat candidate : String) : Bool :=
  match domainToASCII idna candidate, domainToASCII idna pat with
  | .ok c, .ok q => (c == q) || wildcardArm c.toList q.toList
  | _, _ => false

/-! ## Cache file naming (sts.go lines 362-371) -/

/-- `domainPath` with `pathPrefix = "pol:"` (sts.go lines 362-371).  The
Go function panics when the domain contains a '/'; the panic is the
`none` case of the embedding. -/
def domainPath (dir domain : String) : Option String :=
  if '/' ∈ domain.toList then none
  else some (dir ++ "/" ++ ("pol:" ++ domain))

/-! ## HTTP fetch (sts.go lines 237-275) -/

/-- `isTSpecial` of mime/mediatype.go. -/
def isTSpecial (c : Char) : Bool :=
  "()<>@,;:\\\"/[]?=".toList.contains c

/-- `isTokenChar` of mime/grammar.go. -/
def isTokenChar (c : Char) : Bool :=
  0x20 < c.toNat && c.toNat < 0x7f && !(isTSpecial c)

/-- `checkMediaTypeDisposition` of mime/mediatype.go as a predicate: the
string must be one token, optionally followed by '/' and a second token
consuming the rest. -/
def mediaTypeShapeOK (l : List Char) : Bool :=
  let typ := l.takeWhile isTokenChar
  match l.drop typ.length with
  | [] => !typ.isEmpty
  | '/' :: r2 =>
    let sub := r2.takeWhile isTokenChar
    !typ.isEmpty && !sub.isEmpty && (r2.drop sub.length).isEmpty
  | _ => false

/-- `mime.ParseMediaType` restricted to the media type itself: the part
before the first ';' is lowercased and trimmed and must pass
`checkMediaTypeDisposition`.  Parameter-section syntax errors (which
also make the Go function return an error) are not modelled; the
headers the claims evaluate carry no parameters or well-formed ones. -/
def parseMediaType (v : String) : Except Unit String :=
  let base :=
    match splitOnce ';' v.toList with
    | none => v.toList
    | some q => q.1
  let mt := trimSpace (base.map asciiLower)
  if mediaTypeShapeOK mt then .ok (String.mk mt) else .error ()

inductive HTTPErr where
  | transportFailure
  | rejectedRedirect
  | missingLocation
  | badStatus (code : Nat)
  | mediaTypeSyntax
  | invalidMediaType
deriving DecidableEq

structure HTTPResponse where
  statusCode : Nat
  contentType : String
  hasLocation : Bool
  body : String
deriving DecidableEq

/-- Whether the Go HTTP client treats a response status as a redirect to
follow: 301, 302, 303, 307, 308.  (300, 304 and 305 are handed back to
the caller unchanged.) -/
def redirectStatus (code : Nat) : Bool :=
  code == 301 || code == 302 || code == 303 || code == 307 || code == 308

/-- `httpGet` (sts.go lines 237-269) over an abstract transport outcome:
`none` is a transport failure of the GET itself, `some resp` a delivered
response.  For a redirecting status the client consults `CheckRedirect`,
which is `rejectRedirect` (lines 271-275) and always errors, so the GET
fails with the distinct redirect error (a redirecting status lacking a
Location header fails inside the client before `CheckRedirect` runs).
On success at most 10 KiB of body is read through the
`io.LimitedReader`. -/
def httpGet (r : Option HTTPResponse) : Except HTTPErr String :=
  match r with
  | none => .error .transportFailure
  | some resp =>
    if redirectStatus resp.statusCode then
      if resp.hasLocation then .error .rejectedRedirect
      else .error .missingLocation
    else if resp.statusCode ≠ 200 then .error (.badStatus resp.statusCode)
    else
      match parseMediaType resp.contentType with
      | .error _ => .error .mediaTypeSyntax
      | .ok mt =>
        if mt ≠ "text/plain" then .error .invalidMediaType
        else .ok (String.mk (resp.body.toList.take 10240))

/-! ## encoding/json for `Policy` (the cache payload)

encoding/json's byte rendering is standard-library behaviour external to
this repository; it is modelled at the level of the JSON values it
transports (a faithful transport: rendering then re-parsing a value of
this shape is the identity). -/

inductive JSON where
  | null
  | str (s : String)
  | num (n : Int)
  | arr (elems : List JSON)
  | obj (fields : List (String × JSON))

/-- `json.Marshal` of a `Policy` with its struct tags `version`, `mode`,
`mx`, `max_age`: a nil `MXs` slice marshals as `null` (the parser leaves
the slice nil when no `mx` line occurs), and `MaxAge` marshals as its
int64 nanosecond count. -/
def marshalPolicy (p : Policy) : JSON :=
  .obj [("version", .str p.Version), ("mode", .str p.Mode),
        ("mx", if p.MXs = [] then .null else .arr (p.MXs.map .str)),
        ("max_age", .num p.MaxAge)]

/-- Decode a JSON array into a `[]string`: every element must be a
string (or null, which decodes to ""). -/
def decodeStrings : List JSON → Option (List String)
  | [] => some []
  | .str s :: rest => (decodeStrings rest).map (fun l => s :: l)
  | .null :: rest => (decodeStrings rest).map (fun l => "" :: l)
  | _ => none

/-- One field of `json.Unmarshal` into a `Policy`: known keys assign
(a later duplicate key overwrites an earlier one), `null` leaves the
field untouched, a type mismatch is an error, unknown keys are
ignored.  Go also matches keys case-insensitively as a fallback; the
payloads in scope are written by `marshalPolicy` with exact keys, so
that fallback is not modelled. -/
def unmarshalField (p : Policy) : String × JSON → Option Policy
  | ("version", .str s) => some { p with Version := s }
  | ("version", .null) => some p
  | ("version", _) => none
  | ("mode", .str s) => some { p with Mode := s }
  | ("mode", .null) => some p
  | ("mode", _) => none
  | ("mx", .arr xs) => (decodeStrings xs).map (fun l => { p with MXs := l })
  | ("mx", .null) => some p
  | ("mx", _) => none
  | ("max_age", .num n) =>
    if -9223372036854775808 ≤ n ∧ n ≤ 9223372036854775807 then
      some { p with MaxAge := n }
    else none
  | ("max_age", _) => none
  | _ => some p

/-- `json.Unmarshal` of a cache payload into `&Policy{}`. -/
def unmarshalPolicy : JSON → Option Policy
  | .obj fields => fields.foldlM unmarshalField emptyPolicy
  | _ => none

/-! ## The policy cache: load, store, read-through fetch
(sts.go lines 338-470) -/

/-- The on-disk state of one cache entry: its modification time (an
absolute instant, nanoseconds) and its payload.  `body = .error ()`
models a file whose `os.ReadFile` fails. -/
structure CacheFile where
  mtime : Int
  body : Except Unit JSON

inductive LoadErr where
  | statFailure      -- os.Stat error (missing file)
  | expired          -- errExpired
  | readFailure      -- os.ReadFile error
  | unmarshalFailure -- json.Unmarshal error
  | invalidPolicy    -- Policy.Check failed on the loaded policy
deriving DecidableEq

structure LoadResult where
  result : Except LoadErr Policy
  bodyRead : Bool
deriving DecidableEq

/-- `PolicyCache.load` (sts.go lines 375-409) at instant `now` on the
file state `file` (`none` = no file, so `os.Stat` fails).  The entry is
expired when `time.Since(mtime) > 0`, i.e. `now - mtime > 0`, checked
before any read of the body; then the body is read, unmarshalled and
revalidated with `Policy.Check`.  `bodyRead` records whether
`os.ReadFile` was reached. -/
def load (now : Int) (file : Option CacheFile) : LoadResult :=
  match file with
  | none => ⟨.error .statFailure, false⟩
  | some f =>
    if 0 < now - f.mtime then ⟨.error .expired, false⟩
    else
      match f.body with
      | .error _ => ⟨.error .readFailure, true⟩
      | .ok data =>
        match unmarshalPolicy data with
        | none => ⟨.error .unmarshalFailure, true⟩
        | some p =>
          match p.Check with
          | some _ => ⟨.error .invalidPolicy, true⟩
          | none => ⟨.ok p, true⟩

/-- The file `PolicyCache.store` (sts.go lines 411-433) writes at
instant `now`: the marshalled policy, with both file times set to
`expires = now + p.MaxAge`.  (`json.Marshal` of a `Policy` cannot fail;
the I/O outcome of the atomic write is a separate parameter wherever a
caller observes it.) -/
def storedFile (now : Int) (p : Policy) : CacheFile :=
  { mtime := now + p.MaxAge, body := .ok (marshalPolicy p) }

structure CacheFetchResult (ε : Type) where
  result : Except ε Policy
  upstreamInvoked : Bool
deriving DecidableEq

/-- `PolicyCache.Fetch` (sts.go lines 436-470), the read-through entry
point, over the current instant, the entry's file state, the outcome the
upstream fetch pipeline (DNS probe + HTTPS GET + parse + Check) would
produce, and whether the synchronous store would fail.  On a cache hit
the upstream pipeline is never invoked; on any load failure it is; an
upstream error is returned as Fetch's own error; on upstream success the
fresh policy is returned whatever `storeFails` is. -/
def cacheFetch {ε : Type} (now : Int) (file : Option CacheFile)
    (upstream : Except ε Policy) (storeFails : Bool) : CacheFetchResult ε :=
  match (load now file).result with
  | .ok p => ⟨.ok p, false⟩
  | .error _ =>
    match upstream with
    | .error e => ⟨.error e, true⟩
    | .ok p =>
      -- the store is attempted; its failure is logged and ignored
      let _ := storeFails
      ⟨.ok p, true⟩

/-! ## The background refresher (sts.go lines 473-522) -/

/-- The domain of a directory entry the refresher acts on: entries whose
name starts with `pathPrefix = "pol:"` yield `e.Name()[len(pathPrefix):]`,
all others are skipped. -/
def entryDomain (e : String) : Option String :=
  match e.toList with
  | 'p' :: 'o' :: 'l' :: ':' :: rest => some (String.mk rest)
  | _ => none

/-- A cache directory: file contents in the directory, keyed by domain
(the filename is `pol:` ++ the domain). -/
def CacheDir : Type := String → Option CacheFile

/-- Point update of a directory, as the atomic rename of `store`
performs it. -/
def updateDir (dir : CacheDir) (d : String) (f : CacheFile) : CacheDir :=
  fun x => if x = d then some f else dir x

/-- One iteration of the refresh loop (sts.go lines 495-519) on a
directory entry named `e`: skip it unless the name carries the `pol:`
name prefix; otherwise invoke the fetch pipeline for its domain (the
outcome is the oracle `fetchRes`), and on success store the result —
`storeOK` tells whether the atomic write succeeds; when it fails the old
file survives.  On fetch failure the entry is left untouched. -/
def refreshStep (now : Int) (fetchRes : String → Except Unit Policy)
    (storeOK : String → Bool) (dir : CacheDir) (e : String) : CacheDir :=
  match entryDomain e with
  | none => dir
  | some d =>
    match fetchRes d with
    | .error _ => dir
    | .ok p => if storeOK d then updateDir dir d (storedFile now p) else dir

/-- The per-item fetch invocations of one refresh pass, each tagged with
the 30-second timeout the pass derives from its root context
(sts.go line 503), in directory order. -/
def refreshCalls : List String → List (String × Nat)
  | [] => []
  | e :: rest =>
    match entryDomain e with
    | none => refreshCalls rest
    | some d => (d, 30) :: refreshCalls rest

/-- One full refresh pass (`PolicyCache.refresh`, sts.go lines 484-522):
the final directory state together with the fetch invocations made.
The pass never consults an entry's mtime, so the invocation list cannot
depend on expiry — it is a function of the entry names alone. -/
def refreshPass (now : Int) (fetchRes : String → Except Unit Policy)
    (storeOK : String → Bool) (entries : List String) (dir : CacheDir) :
    CacheDir × List (String × Nat) :=
  (entries.foldl (refreshStep now fetchRes storeOK) dir, refreshCalls entries)

/-! ## Termination behaviour of PeriodicallyRefresh after cancellation
(sts.go lines 473-482) -/

inductive RefreshEv where
  /-- the pass invokes the fetch pipeline for a domain; the flag records
  whether the root context was already cancelled at that moment (the
  per-item 30-second context derived from a cancelled root makes the
  fetch fail at once, but the entry is still iterated) -/
  | fetchAttempt (domain : String) (rootCancelled : Bool)
  /-- `time.Sleep` between passes, in minutes -/
  | sleep (minutes : Nat)
  /-- the `for ctx.Err() == nil` condition fails and the loop returns -/
  | exitLoop
deriving DecidableEq

/-- What the entry loop of `refresh` does with the entries not yet
processed when the root context is cancelled: the loop body consults the
context only through the per-item fetch, so every remaining `pol:` entry
is still iterated (each fetch now failing under its cancelled-derived
context). -/
def refreshRest (remaining : List String) : List RefreshEv :=
  match remaining with
  | [] => []
  | e :: rest =>
    match entryDomain e with
    | none => refreshRest rest
    | some d => .fetchAttempt d true :: refreshRest rest

/-- The events `PeriodicallyRefresh` produces from the moment the root
context is cancelled during a pass, with `remaining` the directory
entries of that pass not yet processed: the rest of the pass runs, then
the unconditional `time.Sleep(10 * time.Minute)`, then the loop
condition `ctx.Err() == nil` finally fails and the refresher returns. -/
def runAfterCancel (remaining : List String) : List RefreshEv :=
  refreshRest remaining ++ [.sleep 10, .exitLoop]

/-- A concrete valid policy, used by witnesses and counterexamples. -/
def p0 : Policy :=
  { Version := "STSv1", Mode := "enforce", MXs := ["mail.example.com"],
    MaxAge := 86400 * nsPerSecond }

/-! ## Helper lemmas -/

theorem string_eq_of_data {a b : String} (h : a.data = b.data) : a = b :=
  congrArg String.mk h

theorem splitOnce_of_not_mem (sep : Char) (a b : List Char) (h : sep ∉ a) :
    splitOnce sep (a ++ sep :: b) = some (a, b) := by
  induction a with
  | nil => simp [splitOnce]
  | cons c rest ih =>
    have hc : c ≠ sep := fun hc => h (hc ▸ List.mem_cons_self c rest)
    have hr : sep ∉ rest := fun hr => h (List.mem_cons_of_mem c hr)
    rw [List.cons_append]
    unfold splitOnce
    rw [if_neg hc, ih hr]

theorem splitOnce_eq_none (sep : Char) (l : List Char) (h : sep ∉ l) :
    splitOnce sep l = none := by
  induction l with
  | nil => rfl
  | cons c rest ih =>
    have hc : c ≠ sep := fun hc => h (hc ▸ List.mem_cons_self c rest)
    have hr : sep ∉ rest := fun hr => h (List.mem_cons_of_mem c hr)
    simp only [splitOnce, if_neg hc, ih hr]

theorem matchDomain_eq_spec (idna : String → Except Unit String) (d pat : String) :
    matchDomain idna d pat = specPatternMatches idna pat d := by
  unfold matchDomain specPatternMatches
  cases domainToASCII idna d with
  | error e => cases domainToASCII idna pat <;> rfl
  | ok c =>
    cases domainToASCII idna pat with
    | error e => rfl
    | ok q =>
      by_cases hcq : c = q
      · simp [hcq]
      · simp [hcq]

/-- Sanity check: the RFC example document parses to the expected policy. -/
theorem parsePolicy_sample :
    parsePolicy "version: STSv1\nmode: testing\nmx: mail.example.com\nmax_age: 1\n" =
      .ok { Version := "STSv1", Mode := "testing", MXs := ["mail.example.com"],
            MaxAge := 1000000000 } := by decide

/-- Sanity check: media type extraction lowercases and ignores parameters. -/
theorem parseMediaType_sample :
    parseMediaType "Text/Plain; charset=utf-8" = .ok "text/plain" := by decide

/-! ## Claim theorems -/

/-- Claim C10: a domain string containing '/' makes the cache's path
construction panic (the `none` case of the embedding); for any other
domain the constructed path is exactly dir ++ "/pol:" ++ domain, whose
filename component carries the four-character "pol:" name prefix. -/
theorem c10_domain_path (dir domain : String) :
    ('/' ∈ domain.toList → domainPath dir domain = none) ∧
    ('/' ∉ domain.toList →
      domainPath dir domain = some (dir ++ "/" ++ ("pol:" ++ domain)) ∧
      ("pol:" ++ domain).toList.take 4 = "pol:".toList) := by
  constructor
  · intro h; unfold domainPath; rw [if_pos h]
  · intro h
    refine ⟨by unfold domainPath; rw [if_neg h], ?_⟩
    have happ : ("pol:" ++ domain).toList = "pol:".toList ++ domain.toList :=
      String.data_append _ _
    rw [happ]
    have h4 : ("pol:".toList).length = 4 := rfl
    rw [← h4, List.take_left]

/-- Claim C5: MXIsAllowed is unconditionally true when the mode is not
enforce; in enforce mode it is true exactly when some pattern of the
policy matches the candidate in the spec's sense (byte-equality after
normalization, or the single-label wildcard rule); concretely,
"*.example.net" admits "a.example.net" but neither "example.net" nor
"a.b.example.net". -/
theorem c5_mx_is_allowed :
    (∀ (idna : String → Except Unit String) (p : Policy) (mx : String),
        p.Mode ≠ "enforce" → p.MXIsAllowed idna mx = true) ∧
    (∀ (idna : String → Except Unit String) (p : Policy) (mx : String),
        p.Mode = "enforce" →
        (p.MXIsAllowed idna mx = true ↔
          ∃ pat ∈ p.MXs, specPatternMatches idna pat mx = true)) ∧
    (Policy.MXIsAllowed ⟨"STSv1", "enforce", ["*.example.net"], 1⟩ idnaId
        "a.example.net" = true ∧
     Policy.MXIsAllowed ⟨"STSv1", "enforce", ["*.example.net"], 1⟩ idnaId
        "example.net" = false ∧
     Policy.MXIsAllowed ⟨"STSv1", "enforce", ["*.example.net"], 1⟩ idnaId
        "a.b.example.net" = false) := by
  refine ⟨?_, ?_, by decide, by decide, by decide⟩
  · intro idna p mx h
    simp [Policy.MXIsAllowed, h]
  · intro idna p mx h
    simp [Policy.MXIsAllowed, h, List.any_eq_true, matchDomain_eq_spec]

/-- Claim C7: a redirecting 3xx makes the policy GET fail with the
distinct redirect-rejection error; a successful GET implies status 200,
media type exactly text/plain (parameters ignored), and a returned body
that is the response body truncated to 10240 bytes; and a 200 response
whose well-formed media type differs from text/plain fails with the
distinct invalid-media-type error. -/
theorem c7_http_get (resp : HTTPResponse) :
    (redirectStatus resp.statusCode = true → resp.hasLocation = true →
      httpGet (some resp) = .error .rejectedRedirect) ∧
    (∀ b, httpGet (some resp) = .ok b →
      resp.statusCode = 200 ∧ parseMediaType resp.contentType = .ok "text/plain" ∧
      b = String.mk (resp.body.toList.take 10240) ∧ b.length ≤ 10240) ∧
    (∀ mt, redirectStatus resp.statusCode = false → resp.statusCode = 200 →
      parseMediaType resp.contentType = .ok mt → mt ≠ "text/plain" →
      httpGet (some resp) = .error .invalidMediaType) := by
  refine ⟨?_, ?_, ?_⟩
  · intro h1 h2
    simp [httpGet, h1, h2]
  · intro b h
    simp only [httpGet] at h
    cases hrs : redirectStatus resp.statusCode with
    | true =>
      rw [hrs] at h
      cases hl : resp.hasLocation <;> rw [hl] at h <;> simp at h
    | false =>
      rw [hrs] at h
      simp only [Bool.false_eq_true, if_false] at h
      by_cases hs : resp.statusCode = 200
      · rw [if_neg (by simp [hs])] at h
        cases hct : parseMediaType resp.contentType with
        | error e => simp [hct] at h
        | ok mt =>
          simp only [hct] at h
          by_cases hmt : mt = "text/plain"
          · rw [if_neg (by simp [hmt])] at h
            have hb : String.mk (resp.body.toList.take 10240) = b := by
              simpa using h
            refine ⟨hs, by rw [hmt], hb.symm, ?_⟩
            rw [← hb]
            exact List.length_take_le 10240 resp.body.toList
          · rw [if_pos hmt] at h; simp at h
      · rw [if_pos hs] at h; simp at h
  · intro mt h1 h2 h3 h4
    simp only [httpGet]
    rw [h1]
    simp only [Bool.false_eq_true, if_false]
    rw [if_neg (by simp [h2])]
    simp only [h3]
    rw [if_pos h4]

/-- Claim C1: the read-through Fetch serves a successful disk lookup
without invoking the upstream pipeline; on a lookup failure of any kind
it invokes the upstream pipeline, propagates an upstream error as its
own, and on upstream success returns the fresh policy; the store
outcome never changes the returned result. -/
theorem c1_cache_fetch {ε : Type} (now : Int) (file : Option CacheFile)
    (upstream : Except ε Policy) (storeFails : Bool) :
    (∀ p, (load now file).result = .ok p →
      cacheFetch now file upstream storeFails = ⟨.ok p, false⟩) ∧
    ((∃ e, (load now file).result = .error e) →
      (cacheFetch now file upstream storeFails).upstreamInvoked = true ∧
      (∀ e, upstream = .error e →
        (cacheFetch now file upstream storeFails).result = .error e) ∧
      (∀ p, upstream = .ok p →
        (cacheFetch now file upstream storeFails).result = .ok p)) ∧
    cacheFetch now file upstream true = cacheFetch now file upstream false := by
  refine ⟨?_, ?_, ?_⟩
  · intro p h
    simp [cacheFetch, h]
  · rintro ⟨e, h⟩
    refine ⟨?_, ?_, ?_⟩
    · cases hu : upstream <;> simp [cacheFetch, h, hu]
    · intro e2 hu
      simp [cacheFetch, h, hu]
    · intro p hu
      simp [cacheFetch, h, hu]
  · cases hload : (load now file).result <;> cases upstream <;> simp [cacheFetch, hload]

theorem wrap64_eq_self (x : Int) (hlo : -9223372036854775808 ≤ x)
    (hhi : x ≤ 9223372036854775807) : wrap64 x = x := by
  unfold wrap64
  rw [Int.emod_eq_of_lt (by omega) (by omega)]
  omega

theorem goAtoi_of_digits (v : String) (n : Nat)
    (hd : digitsVal 0 v.toList = some n) (hne : v.toList ≠ [])
    (hn : (n : Int) ≤ 9223372036854775807) : goAtoi v = (n : Int) := by
  unfold goAtoi
  cases hv : v.toList with
  | nil => exact absurd hv hne
  | cons c rest =>
    rw [hv] at hd
    have hcd : c.isDigit = true := by
      by_contra hc
      rw [Bool.not_eq_true] at hc
      unfold digitsVal at hd
      rw [hc] at hd
      simp at hd
    have hplus : c ≠ '+' := by
      intro h; rw [h] at hcd; exact absurd hcd (by decide)
    have hminus : c ≠ '-' := by
      intro h; rw [h] at hcd; exact absurd hcd (by decide)
    show (if c = '+' then goAtoiAbs false rest
      else if c = '-' then goAtoiAbs true rest
      else goAtoiAbs false (c :: rest)) = (n : Int)
    rw [if_neg hplus, if_neg hminus]
    unfold goAtoiAbs
    rw [hd]
    simp only []
    have hlt : ¬(9223372036854775807 < (n : Int)) := by omega
    rw [if_neg hlt]
    simp

theorem check_valid_facts (p : Policy) (h : p.Check = none) :
    p.Version = "STSv1" ∧ 0 < p.MaxAge ∧ p.MaxAge ≤ 31557600 * nsPerSecond ∧
    p.MXs ≠ [] := by
  unfold Policy.Check at h
  split_ifs at h with h1 h2 h3 h4
  refine ⟨by push_neg at h1; exact h1, ?_, ?_, h4⟩
  · push_neg at h2; omega
  · push_neg at h2; omega

theorem decodeStrings_map_str (l : List String) :
    decodeStrings (l.map JSON.str) = some l := by
  induction l with
  | nil => rfl
  | cons s rest ih => simp [decodeStrings, ih]

theorem unmarshal_marshal (p : Policy) (hmx : p.MXs ≠ [])
    (hlo : -9223372036854775808 ≤ p.MaxAge)
    (hhi : p.MaxAge ≤ 9223372036854775807) :
    unmarshalPolicy (marshalPolicy p) = some p := by
  unfold marshalPolicy unmarshalPolicy
  rw [if_neg hmx]
  simp only [List.foldlM, unmarshalField, decodeStrings_map_str, Option.bind]
  simp only [if_pos (And.intro hlo hhi)]
  rfl

/-- Claim C3 counterexample: a cache entry whose mtime equals the
current instant exactly IS served — the lookup reads the body and
returns the policy — refuting both the strictly-in-the-future validity
condition and the claim that such an entry is not served. -/
theorem c3_counterexample :
    (load 0 (some { mtime := 0, body := .ok (marshalPolicy p0) })).result =
      .ok p0 ∧
    (load 0 (some { mtime := 0, body := .ok (marshalPolicy p0) })).bodyRead =
      true := by
  constructor <;> rfl

/-- Claim C3 (amended): the lookup returns the distinguishable expired
error, without reading the body, exactly when now − mtime > 0; it can
serve an entry only when mtime is now or later (not: strictly later);
and an entry whose mtime equals the reading instant behaves exactly
like an unexpired one. -/
theorem c3_expiry_gate (now : Int) (f : CacheFile) :
    (0 < now - f.mtime →
      load now (some f) = ⟨.error .expired, false⟩) ∧
    (∀ p, (load now (some f)).result = .ok p → now ≤ f.mtime) ∧
    (load f.mtime (some f)).result = (load (f.mtime - 1) (some f)).result := by
  refine ⟨?_, ?_, ?_⟩
  · intro h
    simp only [load]
    rw [if_pos h]
  · intro p h
    by_contra hlt
    push_neg at hlt
    have hc : 0 < now - f.mtime := by omega
    simp only [load] at h
    rw [if_pos hc] at h
    simp at h
  · simp only [load]
    have hc1 : ¬(0 < f.mtime - f.mtime) := by omega
    have hc2 : ¬(0 < f.mtime - 1 - f.mtime) := by omega
    rw [if_neg hc1, if_neg hc2]

/-- Claim C9: storing a policy that passes the validity check and
looking it up again at or before the expiry instant returns a policy
equal to it field by field (same version, mode, mx sequence and order,
and max_age). -/
theorem c9_round_trip (p : Policy) (now t : Int) (hv : p.Check = none)
    (ht : t ≤ now + p.MaxAge) :
    (load t (some (storedFile now p))).result = .ok p := by
  obtain ⟨h1, h2, h3, h4⟩ := check_valid_facts p hv
  have hrt : unmarshalPolicy (marshalPolicy p) = some p := by
    apply unmarshal_marshal p h4
    · simp only [nsPerSecond] at h2 h3; omega
    · simp only [nsPerSecond] at h2 h3; omega
  simp only [load, storedFile]
  have hng : ¬(0 < t - (now + p.MaxAge)) := by omega
  rw [if_neg hng]
  simp only [hrt, hv]

/-- Claim C9 witness: the concrete valid policy p0, stored at instant 0
and looked up at instant 0, is returned unchanged. -/
theorem c9_round_trip_witness :
    (load 0 (some (storedFile 0 p0))).result = .ok p0 :=
  c9_round_trip p0 0 0 (by decide) (by decide)

/-- Claim C4 counterexample: the textual value 10000000000 is a base-10
integer, yet the parsed max_age is not 10000000000 seconds — the
nanosecond scaling overflows int64 and wraps to a negative duration;
and the out-of-range numeral 99999999999999999999 does not yield zero
(Atoi saturates to the maximal int64, whose scaling wraps to −10⁹ ns). -/
theorem c4_counterexample :
    (parsePolicy "max_age: 10000000000").map (fun p => p.MaxAge) =
      .ok (-8446744073709551616) ∧
    ¬((parsePolicy "max_age: 10000000000").map (fun p => p.MaxAge) =
      .ok (10000000000 * nsPerSecond)) ∧
    (parsePolicy "max_age: 99999999999999999999").map (fun p => p.MaxAge) =
      .ok (-1000000000) := by
  refine ⟨by decide, by decide, by decide⟩

/-- Claim C4 (amended): a base-10 numeral v is decoded to exactly v
seconds whenever v·10⁹ fits in int64; a syntactically invalid value
yields zero while an out-of-range numeral saturates before scaling; on
the stored duration the validity check accepts max_age exactly when it
lies in (0 s, 31557600 s]; textually, 0 and 31557601 are rejected while
1 and 31557600 are accepted. -/
theorem c4_max_age_semantics :
    (∀ (v : String) (n : Nat),
      digitsVal 0 v.toList = some n → v.toList ≠ [] →
      (n : Int) * nsPerSecond ≤ 9223372036854775807 →
      wrap64 (goAtoi v * nsPerSecond) = (n : Int) * nsPerSecond) ∧
    (∀ p : Policy, p.Version = "STSv1" →
      (p.Check ≠ some .invalidMaxAge ↔
        0 < p.MaxAge ∧ p.MaxAge ≤ 31557600 * nsPerSecond)) ∧
    ((parsePolicy "version: STSv1\nmode: testing\nmx: m\nmax_age: 0\n").map
        Policy.Check = .ok (some .invalidMaxAge) ∧
     (parsePolicy "version: STSv1\nmode: testing\nmx: m\nmax_age: 31557601\n").map
        Policy.Check = .ok (some .invalidMaxAge) ∧
     (parsePolicy "version: STSv1\nmode: testing\nmx: m\nmax_age: 1\n").map
        Policy.Check = .ok none ∧
     (parsePolicy "version: STSv1\nmode: testing\nmx: m\nmax_age: 31557600\n").map
        Policy.Check = .ok none ∧
     (parsePolicy "max_age: bogus\n").map (fun p => p.MaxAge) = .ok 0) := by
  refine ⟨?_, ?_, by decide, by decide, by decide, by decide, by decide⟩
  · intro v n hd hne hfit
    simp only [nsPerSecond] at hfit ⊢
    have hn : (n : Int) ≤ 9223372036854775807 := by
      have h0 : (0 : Int) ≤ (n : Int) := Int.natCast_nonneg n
      omega
    rw [goAtoi_of_digits v n hd hne hn]
    apply wrap64_eq_self
    · have h0 : (0 : Int) ≤ (n : Int) := Int.natCast_nonneg n
      omega
    · exact hfit
  · intro p h1
    unfold Policy.Check
    rw [if_neg (by simp [h1])]
    by_cases hm : p.MaxAge ≤ 0 ∨ 31557600 * nsPerSecond < p.MaxAge
    · rw [if_pos hm]
      constructor
      · intro hc; exact absurd rfl hc
      · intro hc _; rcases hm with hm | hm <;> omega
    · rw [if_neg hm]
      push_neg at hm
      constructor
      · intro _; exact ⟨by omega, by omega⟩
      · intro _; split_ifs <;> simp

theorem rawSegs_no_newline (l : List Char) (h : '\n' ∉ l) : rawSegs l = [l] := by
  induction l with
  | nil => rfl
  | cons c rest ih =>
    have hc : c ≠ '\n' := fun hc => h (hc ▸ List.mem_cons_self c rest)
    have hr : '\n' ∉ rest := fun hr => h (List.mem_cons_of_mem c hr)
    unfold rawSegs
    rw [ih hr]
    simp [hc]

/-- Claim C6 counterexample: a buffer made of one 65536-byte line (no
read error is possible from an in-memory buffer, and the content is a
perfectly well-formed keyless line) makes the parser fail — the
scanner's 64 KiB token limit is exceeded — refuting "fails only on
underlying read errors". -/
theorem c6_counterexample :
    parsePolicy (String.mk (List.replicate 65536 'a')) = .error () := by
  have hnl : '\n' ∉ List.replicate 65536 'a' := by
    intro h
    exact absurd (List.eq_of_mem_replicate h) (by decide)
  have hseg : rawSegs (String.mk (List.replicate 65536 'a')).toList =
      [List.replicate 65536 'a'] := rawSegs_no_newline _ hnl
  have htl : scanTooLong (String.mk (List.replicate 65536 'a')).toList = true := by
    unfold scanTooLong
    rw [hseg, List.any_cons, List.any_nil]
    simp only [List.length_replicate]
    rfl
  unfold parsePolicy
  rw [if_pos htl]

/-- Claim C6 (amended): the parser processes the buffer line by line,
splitting each line at its first ':' with both sides trimmed; lines
without ':' and lines with unrecognized keys leave the policy unchanged;
version and mode are assigned verbatim and each mx value is appended
preserving order; and the parser fails exactly when some line reaches
the scanner's 64 KiB token limit — well-formed or malformed content
below that limit never fails. -/
theorem c6_line_discipline :
    (∀ (p : Policy) (line : List Char), ':' ∉ line → applyLine p line = p) ∧
    (∀ (p : Policy) (a b : List Char), ':' ∉ a →
      String.mk (trimSpace a) = "version" →
      applyLine p (a ++ ':' :: b) = { p with Version := String.mk (trimSpace b) }) ∧
    (∀ (p : Policy) (a b : List Char), ':' ∉ a →
      String.mk (trimSpace a) = "mode" →
      applyLine p (a ++ ':' :: b) = { p with Mode := String.mk (trimSpace b) }) ∧
    (∀ (p : Policy) (a b : List Char), ':' ∉ a →
      String.mk (trimSpace a) = "mx" →
      applyLine p (a ++ ':' :: b) =
        { p with MXs := p.MXs ++ [String.mk (trimSpace b)] }) ∧
    (∀ (p : Policy) (a b : List Char), ':' ∉ a →
      String.mk (trimSpace a) ∉ (["version", "mode", "max_age", "mx"] : List String) →
      applyLine p (a ++ ':' :: b) = p) ∧
    (∀ raw : String, (∃ e, parsePolicy raw = .error e) ↔
      ∃ seg ∈ rawSegs raw.toList, maxScanTokenSize ≤ seg.length) ∧
    (parsePolicy "mx: a.com\nmx: b.org\n").map (fun p => p.MXs) =
      .ok ["a.com", "b.org"] := by
  refine ⟨?_, ?_, ?_, ?_, ?_, ?_, by decide⟩
  · intro p line h
    unfold applyLine
    rw [splitOnce_eq_none ':' line h]
  · intro p a b h hk
    unfold applyLine
    rw [splitOnce_of_not_mem ':' a b h]
    simp only [hk]
    simp
  · intro p a b h hk
    unfold applyLine
    rw [splitOnce_of_not_mem ':' a b h]
    simp only [hk]
    simp
  · intro p a b h hk
    unfold applyLine
    rw [splitOnce_of_not_mem ':' a b h]
    simp only [hk]
    simp
  · intro p a b h hk
    have hk1 : String.mk (trimSpace a) ≠ "version" := fun hh => hk (by rw [hh]; decide)
    have hk2 : String.mk (trimSpace a) ≠ "mode" := fun hh => hk (by rw [hh]; decide)
    have hk3 : String.mk (trimSpace a) ≠ "max_age" := fun hh => hk (by rw [hh]; decide)
    have hk4 : String.mk (trimSpace a) ≠ "mx" := fun hh => hk (by rw [hh]; decide)
    unfold applyLine
    rw [splitOnce_of_not_mem ':' a b h]
    simp only [if_neg hk1, if_neg hk2, if_neg hk3, if_neg hk4]
  · intro raw
    unfold parsePolicy
    by_cases htl : scanTooLong raw.toList = true
    · rw [if_pos htl]
      unfold scanTooLong at htl
      rw [List.any_eq_true] at htl
      constructor
      · intro _
        obtain ⟨seg, hmem, hlen⟩ := htl
        exact ⟨seg, hmem, by simpa using hlen⟩
      · intro _
        exact ⟨(), rfl⟩
    · rw [if_neg htl]
      constructor
      · rintro ⟨e, he⟩
        cases he
      · rintro ⟨seg, hmem, hlen⟩
        exfalso
        apply htl
        unfold scanTooLong
        rw [List.any_eq_true]
        exact ⟨seg, hmem, by simpa using hlen⟩

theorem refreshRest_mem (l : List String) (ev : RefreshEv)
    (h : ev ∈ refreshRest l) : ∃ d, ev = .fetchAttempt d true := by
  induction l with
  | nil => cases h
  | cons e rest ih =>
    unfold refreshRest at h
    cases hd : entryDomain e with
    | none => rw [hd] at h; exact ih h
    | some d =>
      rw [hd] at h
      rcases List.mem_cons.mp h with h1 | h2
      · exact ⟨d, h1⟩
      · exact ih h2

/-- Claim C2 counterexample: with entries pol:a and pol:b still pending
when the root context is cancelled, the refresher both iterates the
remaining entry (a fetch attempt for b under the cancelled context) and
sleeps a full 10-minute inter-pass interval before exiting — refuting
"terminates after the current item at the latest, without iterating the
remaining entries or sleeping a full interval". -/
theorem c2_counterexample :
    RefreshEv.fetchAttempt "b" true ∈ runAfterCancel ["pol:a", "pol:b"] ∧
    RefreshEv.sleep 10 ∈ runAfterCancel ["pol:a", "pol:b"] := by decide

/-- Claim C2 (amended): after cancellation of the root context the
refresher does terminate cleanly, but only after finishing the rest of
the current pass (every remaining pol: entry is still iterated, each
per-item fetch running under the cancelled context) and after exactly
one further full 10-minute sleep; it never starts another pass. -/
theorem c2_termination (remaining : List String) :
    (∃ pre, runAfterCancel remaining =
        pre ++ [RefreshEv.sleep 10, RefreshEv.exitLoop] ∧
      ∀ ev ∈ pre, ∃ d, ev = RefreshEv.fetchAttempt d true) ∧
    (runAfterCancel remaining).count (RefreshEv.sleep 10) = 1 ∧
    (runAfterCancel remaining).getLast? = some RefreshEv.exitLoop := by
  refine ⟨⟨refreshRest remaining, rfl, fun ev h => refreshRest_mem _ _ h⟩, ?_, ?_⟩
  · unfold runAfterCancel
    rw [List.count_append]
    have h0 : (refreshRest remaining).count (RefreshEv.sleep 10) = 0 := by
      rw [List.count_eq_zero]
      intro h
      obtain ⟨d, hd⟩ := refreshRest_mem _ _ h
      cases hd
    rw [h0]
    decide
  · unfold runAfterCancel
    rw [List.getLast?_append]
    rfl

theorem refreshCalls_eq (entries : List String) :
    refreshCalls entries =
      entries.filterMap (fun e => (entryDomain e).map (fun d => (d, 30))) := by
  induction entries with
  | nil => rfl
  | cons e rest ih =>
    unfold refreshCalls
    cases hd : entryDomain e with
    | none => simp [List.filterMap_cons, hd, ih]
    | some d => simp [List.filterMap_cons, hd, ih]

theorem refreshStep_frame (now : Int) (fetchRes : String → Except Unit Policy)
    (storeOK : String → Bool) (dir : CacheDir) (e d : String)
    (h : entryDomain e = some d → fetchRes d = .error ()) :
    refreshStep now fetchRes storeOK dir e d = dir d := by
  cases hd : entryDomain e with
  | none => simp only [refreshStep, hd]
  | some d2 =>
    by_cases hdd : d2 = d
    · subst hdd
      simp only [refreshStep, hd, h hd]
    · simp only [refreshStep, hd]
      cases hf : fetchRes d2 with
      | error u => rfl
      | ok p =>
        show (if storeOK d2 = true then updateDir dir d2 (storedFile now p)
          else dir) d = dir d
        by_cases hs : storeOK d2 = true
        · rw [if_pos hs]
          unfold updateDir
          rw [if_neg (fun hh => hdd hh.symm)]
        · rw [if_neg hs]

theorem refreshFold_frame (now : Int) (fetchRes : String → Except Unit Policy)
    (storeOK : String → Bool) (d : String) (entries : List String)
    (h : fetchRes d = .error () ∨ ∀ e ∈ entries, entryDomain e ≠ some d) :
    ∀ dir : CacheDir,
      entries.foldl (refreshStep now fetchRes storeOK) dir d = dir d := by
  induction entries with
  | nil => intro dir; rfl
  | cons e rest ih =>
    intro dir
    rw [List.foldl_cons]
    have hrest : fetchRes d = .error () ∨ ∀ e2 ∈ rest, entryDomain e2 ≠ some d := by
      rcases h with h1 | h2
      · exact Or.inl h1
      · exact Or.inr (fun e2 he2 => h2 e2 (List.mem_cons_of_mem e he2))
    rw [ih hrest]
    apply refreshStep_frame
    intro hd
    rcases h with h1 | h2
    · exact h1
    · exact absurd hd (h2 e (List.mem_cons_self e rest))

theorem refreshStep_preserves (now : Int) (fetchRes : String → Except Unit Policy)
    (storeOK : String → Bool) (dir : CacheDir) (e d : String)
    (h : dir d ≠ none) : refreshStep now fetchRes storeOK dir e d ≠ none := by
  cases hde : entryDomain e with
  | none => simp only [refreshStep, hde]; exact h
  | some d2 =>
    simp only [refreshStep, hde]
    cases hf : fetchRes d2 with
    | error u => exact h
    | ok p =>
      show (if storeOK d2 = true then updateDir dir d2 (storedFile now p)
        else dir) d ≠ none
      by_cases hs : storeOK d2 = true
      · rw [if_pos hs]
        unfold updateDir
        by_cases hdd : d = d2
        · rw [if_pos hdd]; simp
        · rw [if_neg hdd]; exact h
      · rw [if_neg hs]; exact h

theorem refreshFold_preserves (now : Int) (fetchRes : String → Except Unit Policy)
    (storeOK : String → Bool) (d : String) (entries : List String) :
    ∀ dir : CacheDir, dir d ≠ none →
      entries.foldl (refreshStep now fetchRes storeOK) dir d ≠ none := by
  induction entries with
  | nil => intro dir h; exact h
  | cons e rest ih =>
    intro dir h
    rw [List.foldl_cons]
    exact ih _ (refreshStep_preserves now fetchRes storeOK dir e d h)

/-- Claim C8: one refresh pass invokes the fetch pipeline exactly once,
with the 30-second per-item timeout, for each directory entry carrying
the pol: name prefix — in directory order and independently of the
cache's file states, so expiry plays no role; a domain whose fetch
fails (and any domain without an entry) keeps its cache file completely
unchanged; and the pass never deletes an entry. -/
theorem c8_refresh_pass (now : Int) (fetchRes : String → Except Unit Policy)
    (storeOK : String → Bool) (entries : List String) (dir : CacheDir) :
    (refreshPass now fetchRes storeOK entries dir).2 =
      entries.filterMap (fun e => (entryDomain e).map (fun d => (d, 30))) ∧
    (∀ (now₂ : Int) (fetchRes₂ : String → Except Unit Policy)
        (storeOK₂ : String → Bool) (dir₂ : CacheDir),
      (refreshPass now₂ fetchRes₂ storeOK₂ entries dir₂).2 =
        (refreshPass now fetchRes storeOK entries dir).2) ∧
    (∀ d : String,
      (fetchRes d = .error () ∨ ∀ e ∈ entries, entryDomain e ≠ some d) →
      (refreshPass now fetchRes storeOK entries dir).1 d = dir d) ∧
    (∀ d : String, dir d ≠ none →
      (refreshPass now fetchRes storeOK entries dir).1 d ≠ none) := by
  refine ⟨refreshCalls_eq entries, fun _ _ _ _ => rfl, ?_, ?_⟩
  · intro d h
    exact refreshFold_frame now fetchRes storeOK d entries h dir
  · intro d h
    exact refreshFold_preserves now fetchRes storeOK d entries dir h
